import Mathlib

/-!
Shallow embedding of the two core hooks of the react-hooks-lib repository
(`useDebounce` and `useLocalStorage`, TUTORIAL.md "Step 3: Create the Hooks"),
together with a model of the default serialization codec
(`JSON.stringify` / `JSON.parse`) they rely on.

JSON numbers are modelled as integers (`Int`); JS strings are modelled as
Lean `String`s of Unicode scalar values.
-/

/-! ## JSON values

The default codec of `useLocalStorage` is `JSON.stringify` / `JSON.parse`.
JSON values are modelled as a mutual inductive: a value, an array spine and
an object spine. -/

mutual

inductive JVal where
  | jnull : JVal
  | jbool : Bool → JVal
  | jnum : Int → JVal
  | jstr : String → JVal
  | jarr : JArr → JVal
  | jobj : JObj → JVal

inductive JArr where
  | anil : JArr
  | acons : JVal → JArr → JArr

inductive JObj where
  | onil : JObj
  | ocons : String → JVal → JObj → JObj

end

/-! ## Decimal rendering of natural numbers -/

def digitChar : Nat → Char
  | 0 => '0'
  | 1 => '1'
  | 2 => '2'
  | 3 => '3'
  | 4 => '4'
  | 5 => '5'
  | 6 => '6'
  | 7 => '7'
  | 8 => '8'
  | 9 => '9'
  | _ => '0'

def digitVal (c : Char) : Nat := c.toNat - 48

def natDigits (n : Nat) : List Char :=
  if n < 10 then [digitChar n]
  else natDigits (n / 10) ++ [digitChar (n % 10)]
termination_by n
decreasing_by exact Nat.div_lt_self (by omega) (by omega)

def digitsToNat (ds : List Char) : Nat :=
  ds.foldl (fun a c => 10 * a + digitVal c) 0

/-! ## String escaping (the `JSON.stringify` escaping of `"` and `\`) -/

def escapeList : List Char → List Char
  | [] => []
  | c :: rest =>
    if c = '"' ∨ c = '\\' then '\\' :: c :: escapeList rest
    else c :: escapeList rest

/-- Body of a JSON string literal: consume characters up to the closing
unescaped quote, undoing escapes. -/

def parseStrBody : List Char → Option (List Char × List Char)
  | [] => none
  | c :: rest =>
    if c = '\\' then
      match rest with
      | [] => none
      | e :: rest2 => (parseStrBody rest2).map (fun p => (e :: p.1, p.2))
    else if c = '"' then some ([], rest)
    else (parseStrBody rest).map (fun p => (c :: p.1, p.2))

/-! ## Number lexing -/

def parseNat (cs : List Char) : Option (Nat × List Char) :=
  let ds := cs.takeWhile Char.isDigit
  if ds.isEmpty then none
  else some (digitsToNat ds, cs.dropWhile Char.isDigit)

/-- The character after a rendered number must not itself be a digit; every
delimiter produced by the renderer (`,`, `]`, the closing brace, end of
input) satisfies this. -/

def delimOk : List Char → Bool
  | [] => true
  | c :: _ => !c.isDigit

/-! ## Rendering JSON values (model of `JSON.stringify`) -/

def renderInt (n : Int) : List Char :=
  if n < 0 then '-' :: natDigits n.natAbs else natDigits n.natAbs

mutual

def renderV : JVal → List Char
  | .jnull => ['n', 'u', 'l', 'l']
  | .jbool true => ['t', 'r', 'u', 'e']
  | .jbool false => ['f', 'a', 'l', 's', 'e']
  | .jnum n => renderInt n
  | .jstr s => '"' :: (escapeList s.data ++ ['"'])
  | .jarr a => '[' :: (renderA a ++ [']'])
  | .jobj o => '\x7b' :: (renderO o ++ ['\x7d'])

def renderA : JArr → List Char
  | .anil => []
  | .acons v r => renderV v ++ renderA1 r

def renderA1 : JArr → List Char
  | .anil => []
  | .acons v r => ',' :: (renderV v ++ renderA1 r)

def renderO : JObj → List Char
  | .onil => []
  | .ocons k v r => '"' :: ((escapeList k.data ++ '"' :: ':' :: renderV v) ++ renderO1 r)

def renderO1 : JObj → List Char
  | .onil => []
  | .ocons k v r => ',' :: '"' :: ((escapeList k.data ++ '"' :: ':' :: renderV v) ++ renderO1 r)

end

/-! ## Constructor-counting size, used as a fuel bound for the parser -/

mutual

def sizeV : JVal → Nat
  | .jnull => 1
  | .jbool _ => 1
  | .jnum _ => 1
  | .jstr _ => 1
  | .jarr a => 1 + sizeA a
  | .jobj o => 1 + sizeO o

def sizeA : JArr → Nat
  | .anil => 0
  | .acons v r => 1 + sizeV v + sizeA r

def sizeO : JObj → Nat
  | .onil => 0
  | .ocons _ v r => 1 + sizeV v + sizeO r

end

/-! ## Parsing (model of `JSON.parse`)

The mutually recursive part of the grammar runs on a fuel argument; lexing
of strings and numbers is structural. -/

mutual

def parseV : Nat → List Char → Option (JVal × List Char)
  | 0, _ => none
  | _ + 1, [] => none
  | f + 1, c :: cs =>
    if c.isDigit then (parseNat (c :: cs)).map (fun p => (JVal.jnum (p.1 : Int), p.2))
    else if c = '-' then (parseNat cs).map (fun p => (JVal.jnum (-(p.1 : Int)), p.2))
    else if c = '"' then (parseStrBody cs).map (fun p => (JVal.jstr (String.mk p.1), p.2))
    else if c = '[' then (parseA f cs).map (fun p => (JVal.jarr p.1, p.2))
    else if c = '\x7b' then (parseO f cs).map (fun p => (JVal.jobj p.1, p.2))
    else if c = 'n' then
      match cs with
      | 'u' :: 'l' :: 'l' :: rest => some (JVal.jnull, rest)
      | _ => none
    else if c = 't' then
      match cs with
      | 'r' :: 'u' :: 'e' :: rest => some (JVal.jbool true, rest)
      | _ => none
    else if c = 'f' then
      match cs with
      | 'a' :: 'l' :: 's' :: 'e' :: rest => some (JVal.jbool false, rest)
      | _ => none
    else none

def parseA : Nat → List Char → Option (JArr × List Char)
  | _, [] => none
  | 0, c :: cs => if c = ']' then some (JArr.anil, cs) else none
  | f + 1, c :: cs =>
    if c = ']' then some (JArr.anil, cs)
    else
      match parseV f (c :: cs) with
      | none => none
      | some (v, r) =>
        match parseA1 f r with
        | none => none
        | some (a, r2) => some (JArr.acons v a, r2)

def parseA1 : Nat → List Char → Option (JArr × List Char)
  | _, [] => none
  | 0, c :: cs => if c = ']' then some (JArr.anil, cs) else none
  | f + 1, c :: cs =>
    if c = ']' then some (JArr.anil, cs)
    else if c = ',' then
      match parseV f cs with
      | none => none
      | some (v, r) =>
        match parseA1 f r with
        | none => none
        | some (a, r2) => some (JArr.acons v a, r2)
    else none

def parseO : Nat → List Char → Option (JObj × List Char)
  | _, [] => none
  | 0, c :: cs => if c = '\x7d' then some (JObj.onil, cs) else none
  | f + 1, c :: cs =>
    if c = '\x7d' then some (JObj.onil, cs)
    else if c = '"' then
      match parseStrBody cs with
      | none => none
      | some (k, r) =>
        match r with
        | ':' :: r2 =>
          match parseV f r2 with
          | none => none
          | some (v, r3) =>
            match parseO1 f r3 with
            | none => none
            | some (o, r4) => some (JObj.ocons (String.mk k) v o, r4)
        | _ => none
    else none

def parseO1 : Nat → List Char → Option (JObj × List Char)
  | _, [] => none
  | 0, c :: cs => if c = '\x7d' then some (JObj.onil, cs) else none
  | f + 1, c :: cs =>
    if c = '\x7d' then some (JObj.onil, cs)
    else if c = ',' then
      match cs with
      | '"' :: cs2 =>
        match parseStrBody cs2 with
        | none => none
        | some (k, r) =>
          match r with
          | ':' :: r2 =>
            match parseV f r2 with
            | none => none
            | some (v, r3) =>
              match parseO1 f r3 with
              | none => none
              | some (o, r4) => some (JObj.ocons (String.mk k) v o, r4)
          | _ => none
      | _ => none
    else none

end

/-! ## The codec as used by `useLocalStorage` -/

def serialize (v : JVal) : String := String.mk (renderV v)

def deserialize (s : String) : Option JVal :=
  match parseV (s.data.length + 1) s.data with
  | some (v, []) => some v
  | _ => none

/-! ## The Debounced Value Emitter (`useDebounce`)

The hook keeps one piece of state (`debouncedValue`) and, on every change of
`(value, delay)`, cancels the outstanding `setTimeout` and schedules a new one
for `delay` from now; the timer, when it fires, copies the observed value into
the output.  The embedding is a state machine over absolute timestamps: the
host event loop delivers a due timer callback before any later event, so a
pending timer with `fireTime ≤ now` is flushed before an event at `now` is
processed. -/

structure DState (V : Type) where
  output : V
  pending : Option (Nat × V)

/-- Run the pending `setTimeout` callback if its fire time has been reached. -/

def fireIfDue {V : Type} (s : DState V) (now : Nat) : DState V :=
  match s.pending with
  | some p => if p.1 ≤ now then { output := p.2, pending := none } else s
  | none => s

/-- A change of the observed value at time `t`: the effect cleanup cancels the
outstanding timer (after flushing it if it was already due) and schedules a
new one for `t + d` carrying the newly observed value. -/

def observeChange {V : Type} (d : Nat) (s : DState V) (t : Nat) (v : V) : DState V :=
  let s' := fireIfDue s t
  { output := s'.output, pending := some (t + d, v) }

/-- Mount at time `t0` with initial value `v0`: the output starts as `v0` and
the mount effect schedules a (no-op) timer for `t0 + d` carrying `v0`. -/

def mountDebounce {V : Type} (d : Nat) (t0 : Nat) (v0 : V) : DState V :=
  { output := v0, pending := some (t0 + d, v0) }

def runChanges {V : Type} (d : Nat) (s : DState V) : List (Nat × V) → DState V
  | [] => s
  | (t, v) :: evs => runChanges d (observeChange d s t v) evs

/-- The emitter's output as read at time `now`, after mounting at `t0` with
`v0` and observing the timestamped change events `evs`. -/

def outputAt {V : Type} (d : Nat) (t0 : Nat) (v0 : V) (evs : List (Nat × V)) (now : Nat) : V :=
  (fireIfDue (runChanges d (mountDebounce d t0 v0) evs) now).output

/-- Unmount: the effect cleanup runs `clearTimeout` on the outstanding
handler. -/

def unmountDebounce {V : Type} (s : DState V) : DState V :=
  { output := s.output, pending := none }

/-! Specification-side definitions, transcribed from the spec's words: the
values that "remained unchanged for a full `delayMs` window", and the output
as "the last value that remained unchanged for at least `d`, the initial
observed value until the first window elapses". -/

/-- The observations (timestamped values) that remained unchanged for at
least `d`: each observation lasts until the next one (or until `now` for the
last). -/

def stableValues {V : Type} (d now : Nat) : List (Nat × V) → List V
  | [] => []
  | (t, v) :: obs =>
    let tEnd := match obs with
      | [] => now
      | (t2, _) :: _ => t2
    (if t + d ≤ tEnd then [v] else []) ++ stableValues d now obs

/-- The spec's output: the last value that remained unchanged for at least
`d`; the initial observed value if there is none yet. -/

def specDebounceOutput {V : Type} (d now t0 : Nat) (v0 : V) (evs : List (Nat × V)) : V :=
  (stableValues d now ((t0, v0) :: evs)).getLastD v0

/-! Characterization of the machine after a run. -/

def commitFold {V : Type} (d : Nat) (o : V) (ft : Nat) (vl : V) : List (Nat × V) → V
  | [] => o
  | (t, v) :: evs => commitFold d (if ft ≤ t then vl else o) (t + d) v evs

def lastSched {V : Type} (d : Nat) (ft : Nat) (vl : V) : List (Nat × V) → Nat × V
  | [] => (ft, vl)
  | (t, v) :: evs => lastSched d (t + d) v evs

/-! ## The Persisted Key-Value Synchronizer (`useLocalStorage`)

The durable store is a partial map from keys to raw strings
(`window.localStorage`, `getItem` returning `null` modelled as `none`).
Every `catch (error)` block in the hook runs `console.log(error)`; a log
entry of kind `parseError raw` stands for logging the `SyntaxError` thrown
by `JSON.parse raw` (its content is a function of the raw string alone),
and `writeError` stands for logging the exception thrown by `setItem`. -/

inductive LogEntry where
  | parseError : String → LogEntry
  | writeError : LogEntry

deriving DecidableEq

/-- Whether a logged entry textually references a given key: the data the
hook passes to `console.log` is the caught error, whose content derives from
the raw stored string, so the most generous reading is "the key occurs as a
substring of that raw string". -/

def LogEntry.mentions (e : LogEntry) (k : String) : Bool :=
  match e with
  | .parseError raw => decide (k.data <:+: raw.data)
  | .writeError => false

structure LSEnv where
  hasWindow : Bool
  store : String → Option String

/-- The lazy `useState` initializer of `useLocalStorage`: no window means
`initialValue` untouched; otherwise `getItem`, with `item ? JSON.parse(item)
: initialValue` (JS truthiness: `null` and the empty string are falsy) and
the `catch` falling back to `initialValue` after logging. Returns the
initial in-memory value together with the log output. -/

def openLS (env : LSEnv) (key : String) (initial : JVal) : JVal × List LogEntry :=
  if env.hasWindow = false then (initial, [])
  else
    match env.store key with
    | none => (initial, [])
    | some item =>
      if item = "" then (initial, [])
      else
        match deserialize item with
        | some v => (v, [])
        | none => (initial, [LogEntry.parseError item])

/-- The runtime argument of `setValue`: either a plain value or a function
value (the `value instanceof Function` test distinguishes exactly these). -/

inductive RtArg where
  | updater : (JVal → JVal) → RtArg
  | literal : JVal → RtArg

/-- The `value instanceof Function` test. -/

def RtArg.isFunction : RtArg → Bool
  | .updater _ => true
  | .literal _ => false

/-- `const valueToStore = value instanceof Function ? value(storedValue) :
value`. -/

def resolveValue (a : RtArg) (cur : JVal) : JVal :=
  match a with
  | .updater f => f cur
  | .literal v => v

/-- The environment seen by one `setValue` call; `writeFails = true` models
`localStorage.setItem` throwing (e.g. quota exceeded). -/

structure SetEnv where
  hasWindow : Bool
  writeFails : Bool
  store : String → Option String

/-- `window.localStorage.setItem(key, raw)` as a fallible collaborator. -/

def trySetItem (env : SetEnv) (key raw : String) : Except Unit (String → Option String) :=
  if env.writeFails then Except.error ()
  else Except.ok (fun k => if k = key then some raw else env.store k)

/-- `setValue`: resolve the argument, update the in-memory state
(`setStoredValue`, which the later `catch` does not roll back), then attempt
the durable write; a throwing write is caught and logged. Returns the
in-memory value, the log output, and the store afterwards. -/

def setValue (env : SetEnv) (key : String) (cur : JVal) (logs : List LogEntry) (a : RtArg) :
    (JVal × List LogEntry) × (String → Option String) :=
  let valueToStore := resolveValue a cur
  if env.hasWindow then
    match trySetItem env key (serialize valueToStore) with
    | Except.ok st' => ((valueToStore, logs), st')
    | Except.error _ => ((valueToStore, logs ++ [LogEntry.writeError]), env.store)
  else ((valueToStore, logs), env.store)

/-- A `storage` event: `e.key` and `e.newValue` are both nullable. -/

structure StoreEvent where
  key : Option String
  newValue : Option String

/-- `handleStorageChange`: react only to events for our own key carrying a
non-null new value; a payload that fails to deserialize is logged and the
current value kept. -/

def handleStorageChange (myKey : String) (cur : JVal) (logs : List LogEntry)
    (e : StoreEvent) : JVal × List LogEntry :=
  match e.key, e.newValue with
  | some k, some raw =>
    if k = myKey then
      match deserialize raw with
      | some v => (v, logs)
      | none => (cur, logs ++ [LogEntry.parseError raw])
    else (cur, logs)
  | _, _ => (cur, logs)

/-- One mounted `useLocalStorage` instance: its state plus whether its
`storage` listener is currently subscribed. -/

structure LSInstance where
  value : JVal
  logs : List LogEntry
  subscribed : Bool

/-- Effect cleanup: `removeEventListener('storage', handleStorageChange)`. -/

def teardownLS (i : LSInstance) : LSInstance :=
  { i with subscribed := false }

/-- Delivery of a `storage` event to an instance: the handler runs only
while the listener is subscribed. -/

def deliverStorage (myKey : String) (i : LSInstance) (e : StoreEvent) : LSInstance :=
  if i.subscribed then
    let r := handleStorageChange myKey i.value i.logs e
    { i with value := r.1, logs := r.2 }
  else i

deriving instance DecidableEq for JVal, JArr, JObj

/-! ## Theorems -/

theorem digitChar_isDigit {d : Nat} (h : d < 10) : (digitChar d).isDigit = true := by
  interval_cases d <;> decide

theorem digitVal_digitChar {d : Nat} (h : d < 10) : digitVal (digitChar d) = d := by
  interval_cases d <;> decide

theorem natDigits_all_digits (n : Nat) : ∀ c ∈ natDigits n, c.isDigit = true := by
  induction n using Nat.strong_induction_on with
  | _ n ih =>
    rw [natDigits]
    by_cases h : n < 10
    · simp only [if_pos h, List.mem_singleton]
      rintro c rfl
      exact digitChar_isDigit h
    · simp only [if_neg h, List.mem_append, List.mem_singleton]
      rintro c (hc | rfl)
      · exact ih (n / 10) (Nat.div_lt_self (by omega) (by omega)) c hc
      · exact digitChar_isDigit (Nat.mod_lt _ (by omega))

theorem natDigits_ne_nil (n : Nat) : natDigits n ≠ [] := by
  rw [natDigits]
  by_cases h : n < 10
  · simp [if_pos h]
  · simp [if_neg h]

theorem digitsToNat_append_singleton (ds : List Char) (c : Char) :
    digitsToNat (ds ++ [c]) = 10 * digitsToNat ds + digitVal c := by
  simp [digitsToNat, List.foldl_append]

theorem digitsToNat_natDigits (n : Nat) : digitsToNat (natDigits n) = n := by
  induction n using Nat.strong_induction_on with
  | _ n ih =>
    rw [natDigits]
    by_cases h : n < 10
    · simp only [if_pos h]
      simp [digitsToNat, digitVal_digitChar h]
    · simp only [if_neg h]
      rw [digitsToNat_append_singleton,
        ih (n / 10) (Nat.div_lt_self (by omega) (by omega)),
        digitVal_digitChar (Nat.mod_lt _ (by omega))]
      omega

theorem parseStrBody_quote (rest : List Char) :
    parseStrBody ('"' :: rest) = some ([], rest) := by
  rw [parseStrBody.eq_def]
  simp only []
  rw [if_neg (by decide)]
  exact if_pos trivial

theorem parseStrBody_backslash (tail : List Char) (c : Char) :
    parseStrBody ('\\' :: c :: tail) = (parseStrBody tail).map (fun p => (c :: p.1, p.2)) := by
  rw [parseStrBody.eq_def]
  simp only []
  exact if_pos trivial

theorem parseStrBody_plain (tail : List Char) (c : Char) (h1 : c ≠ '"') (h2 : c ≠ '\\') :
    parseStrBody (c :: tail) = (parseStrBody tail).map (fun p => (c :: p.1, p.2)) := by
  rw [parseStrBody.eq_def]
  simp only []
  rw [if_neg h2, if_neg h1]

theorem parseStrBody_escape (s : List Char) :
    ∀ rest : List Char, parseStrBody (escapeList s ++ '"' :: rest) = some (s, rest) := by
  induction s with
  | nil =>
    intro rest
    simpa [escapeList] using parseStrBody_quote rest
  | cons c s ih =>
    intro rest
    rw [escapeList]
    by_cases h : c = '"' ∨ c = '\\'
    · rw [if_pos h]
      simp only [List.cons_append]
      rw [parseStrBody_backslash, ih rest]
      rfl
    · rw [if_neg h]
      push_neg at h
      simp only [List.cons_append]
      rw [parseStrBody_plain _ _ h.1 h.2, ih rest]
      rfl

theorem takeWhile_all_append {p : Char → Bool} (xs rest : List Char)
    (hxs : ∀ c ∈ xs, p c = true) (hrest : ∀ c t, rest = c :: t → p c = false) :
    (xs ++ rest).takeWhile p = xs ∧ (xs ++ rest).dropWhile p = rest := by
  induction xs with
  | nil =>
    cases rest with
    | nil => simp
    | cons c t => simp [List.takeWhile, List.dropWhile, hrest c t rfl]
  | cons x xs ih =>
    have hx : p x = true := hxs x (by simp)
    have ih' := ih (fun c hc => hxs c (by simp [hc]))
    constructor
    · simp only [List.cons_append, List.takeWhile_cons, hx, ite_true]
      rw [ih'.1]
    · simp only [List.cons_append, List.dropWhile_cons, hx, ite_true]
      exact ih'.2

theorem parseNat_natDigits (n : Nat) (rest : List Char) (hrest : delimOk rest = true) :
    parseNat (natDigits n ++ rest) = some (n, rest) := by
  have hall := natDigits_all_digits n
  have hr : ∀ c t, rest = c :: t → Char.isDigit c = false := by
    intro c t hct
    subst hct
    simpa [delimOk] using hrest
  have h := takeWhile_all_append (natDigits n) rest hall hr
  have hne : (natDigits n ++ rest).takeWhile Char.isDigit ≠ [] := by
    rw [h.1]; exact natDigits_ne_nil n
  rw [parseNat]
  simp only [List.isEmpty_iff]
  rw [if_neg hne, h.1, h.2, digitsToNat_natDigits n]

/-! ## Parser unfolding lemmas and the round-trip proof -/

theorem parseV_digit (f : Nat) (c : Char) (cs : List Char) (h : c.isDigit = true) :
    parseV (f + 1) (c :: cs) = (parseNat (c :: cs)).map (fun p => (JVal.jnum (p.1 : Int), p.2)) := by
  rw [parseV.eq_def]
  simp only []
  rw [if_pos h]

theorem parseV_dash (f : Nat) (cs : List Char) :
    parseV (f + 1) ('-' :: cs) = (parseNat cs).map (fun p => (JVal.jnum (-(p.1 : Int)), p.2)) := by
  rw [parseV.eq_def]
  simp only []
  rw [if_neg (by decide)]
  exact if_pos trivial

theorem parseV_quote (f : Nat) (cs : List Char) :
    parseV (f + 1) ('"' :: cs) = (parseStrBody cs).map (fun p => (JVal.jstr (String.mk p.1), p.2)) := by
  rw [parseV.eq_def]
  simp only []
  rw [if_neg (by decide), if_neg (by decide)]
  exact if_pos trivial

theorem parseV_lbrack (f : Nat) (cs : List Char) :
    parseV (f + 1) ('[' :: cs) = (parseA f cs).map (fun p => (JVal.jarr p.1, p.2)) := by
  rw [parseV.eq_def]
  simp only []
  rw [if_neg (by decide), if_neg (by decide), if_neg (by decide)]
  exact if_pos trivial

theorem parseV_lbrace (f : Nat) (cs : List Char) :
    parseV (f + 1) ('\x7b' :: cs) = (parseO f cs).map (fun p => (JVal.jobj p.1, p.2)) := by
  rw [parseV.eq_def]
  simp only []
  rw [if_neg (by decide), if_neg (by decide), if_neg (by decide), if_neg (by decide)]
  exact if_pos trivial

theorem parseV_null (f : Nat) (rest : List Char) :
    parseV (f + 1) ('n' :: 'u' :: 'l' :: 'l' :: rest) = some (JVal.jnull, rest) := by
  rw [parseV.eq_def]
  simp only []
  rw [if_neg (by decide), if_neg (by decide), if_neg (by decide), if_neg (by decide),
    if_neg (by decide)]
  exact if_pos trivial

theorem parseV_true (f : Nat) (rest : List Char) :
    parseV (f + 1) ('t' :: 'r' :: 'u' :: 'e' :: rest) = some (JVal.jbool true, rest) := by
  rw [parseV.eq_def]
  simp only []
  rw [if_neg (by decide), if_neg (by decide), if_neg (by decide), if_neg (by decide),
    if_neg (by decide), if_neg (by decide)]
  exact if_pos trivial

theorem parseV_false (f : Nat) (rest : List Char) :
    parseV (f + 1) ('f' :: 'a' :: 'l' :: 's' :: 'e' :: rest) = some (JVal.jbool false, rest) := by
  rw [parseV.eq_def]
  simp only []
  rw [if_neg (by decide), if_neg (by decide), if_neg (by decide), if_neg (by decide),
    if_neg (by decide), if_neg (by decide), if_neg (by decide)]
  exact if_pos trivial

theorem parseA_rbrack (f : Nat) (cs : List Char) :
    parseA f (']' :: cs) = some (JArr.anil, cs) := by
  cases f with
  | zero =>
    rw [parseA.eq_def]
    simp only []
    exact if_pos trivial
  | succ f =>
    rw [parseA.eq_def]
    simp only []
    exact if_pos trivial

theorem parseA_step (f : Nat) (c : Char) (cs r r2 : List Char) (v : JVal) (a : JArr)
    (hc : c ≠ ']') (hv : parseV f (c :: cs) = some (v, r)) (ha : parseA1 f r = some (a, r2)) :
    parseA (f + 1) (c :: cs) = some (JArr.acons v a, r2) := by
  rw [parseA.eq_def]
  simp only []
  rw [if_neg hc, hv]
  simp only []
  rw [ha]

theorem parseA1_rbrack (f : Nat) (cs : List Char) :
    parseA1 f (']' :: cs) = some (JArr.anil, cs) := by
  cases f with
  | zero =>
    rw [parseA1.eq_def]
    simp only []
    exact if_pos trivial
  | succ f =>
    rw [parseA1.eq_def]
    simp only []
    exact if_pos trivial

theorem parseA1_comma (f : Nat) (cs r r2 : List Char) (v : JVal) (a : JArr)
    (hv : parseV f cs = some (v, r)) (ha : parseA1 f r = some (a, r2)) :
    parseA1 (f + 1) (',' :: cs) = some (JArr.acons v a, r2) := by
  rw [parseA1.eq_def]
  simp only []
  rw [if_neg (by decide)]
  rw [if_pos trivial, hv]
  simp only []
  rw [ha]

theorem parseO_rbrace (f : Nat) (cs : List Char) :
    parseO f ('\x7d' :: cs) = some (JObj.onil, cs) := by
  cases f with
  | zero =>
    rw [parseO.eq_def]
    simp only []
    exact if_pos trivial
  | succ f =>
    rw [parseO.eq_def]
    simp only []
    exact if_pos trivial

theorem parseO_member (f : Nat) (cs r2 r3 r4 : List Char) (k : List Char) (v : JVal) (o : JObj)
    (hk : parseStrBody cs = some (k, ':' :: r2)) (hv : parseV f r2 = some (v, r3))
    (ho : parseO1 f r3 = some (o, r4)) :
    parseO (f + 1) ('"' :: cs) = some (JObj.ocons (String.mk k) v o, r4) := by
  rw [parseO.eq_def]
  simp only []
  rw [if_neg (by decide)]
  rw [if_pos trivial, hk]
  simp only []
  rw [hv]
  simp only []
  rw [ho]

theorem parseO1_rbrace (f : Nat) (cs : List Char) :
    parseO1 f ('\x7d' :: cs) = some (JObj.onil, cs) := by
  cases f with
  | zero =>
    rw [parseO1.eq_def]
    simp only []
    exact if_pos trivial
  | succ f =>
    rw [parseO1.eq_def]
    simp only []
    exact if_pos trivial

theorem parseO1_comma (f : Nat) (cs2 r2 r3 r4 : List Char) (k : List Char) (v : JVal) (o : JObj)
    (hk : parseStrBody cs2 = some (k, ':' :: r2)) (hv : parseV f r2 = some (v, r3))
    (ho : parseO1 f r3 = some (o, r4)) :
    parseO1 (f + 1) (',' :: '"' :: cs2) = some (JObj.ocons (String.mk k) v o, r4) := by
  rw [parseO1.eq_def]
  simp only []
  rw [if_neg (by decide)]
  rw [if_pos trivial]
  rw [hk]
  simp only []
  rw [hv]
  simp only []
  rw [ho]

theorem isDigit_ne_special {c : Char} (h : c.isDigit = true) :
    c ≠ ']' ∧ c ≠ ',' ∧ c ≠ '\x7d' := by
  refine ⟨?_, ?_, ?_⟩ <;> rintro rfl <;> revert h <;> decide

theorem renderV_head (v : JVal) :
    ∃ c t, renderV v = c :: t ∧ c ≠ ']' ∧ c ≠ ',' ∧ c ≠ '\x7d' := by
  cases v with
  | jnull => refine ⟨'n', _, rfl, ?_, ?_, ?_⟩ <;> decide
  | jbool b =>
    cases b
    case false => refine ⟨'f', _, rfl, ?_, ?_, ?_⟩ <;> decide
    case true => refine ⟨'t', _, rfl, ?_, ?_, ?_⟩ <;> decide
  | jnum n =>
    rw [renderV, renderInt]
    by_cases hn : n < 0
    · rw [if_pos hn]
      exact ⟨'-', _, rfl, by decide, by decide, by decide⟩
    · rw [if_neg hn]
      obtain ⟨c, t, hct⟩ := List.exists_cons_of_ne_nil (natDigits_ne_nil n.natAbs)
      have hc : c.isDigit = true :=
        natDigits_all_digits _ c (by rw [hct]; exact List.mem_cons_self _ _)
      obtain ⟨h1, h2, h3⟩ := isDigit_ne_special hc
      exact ⟨c, t, hct, h1, h2, h3⟩
  | jstr s => exact ⟨'"', _, rfl, by decide, by decide, by decide⟩
  | jarr a => exact ⟨'[', _, rfl, by decide, by decide, by decide⟩
  | jobj o => exact ⟨'\x7b', _, rfl, by decide, by decide, by decide⟩

theorem delimOk_renderA1 (r : JArr) (rest : List Char) :
    delimOk (renderA1 r ++ ']' :: rest) = true := by
  cases r with
  | anil => rw [renderA1]; rfl
  | acons v a => rw [renderA1]; rfl

theorem delimOk_renderO1 (o : JObj) (rest : List Char) :
    delimOk (renderO1 o ++ '\x7d' :: rest) = true := by
  cases o with
  | onil => rw [renderO1]; rfl
  | ocons k v r => rw [renderO1]; rfl

mutual

theorem parseV_renderV : ∀ (v : JVal) (f : Nat) (rest : List Char),
    sizeV v ≤ f → delimOk rest = true → parseV f (renderV v ++ rest) = some (v, rest)
  | .jnull, f, rest, hf, _ => by
    rw [sizeV] at hf
    obtain ⟨f, rfl⟩ : ∃ g, f = g + 1 := ⟨f - 1, by omega⟩
    rw [renderV]
    exact parseV_null f rest
  | .jbool true, f, rest, hf, _ => by
    rw [sizeV] at hf
    obtain ⟨f, rfl⟩ : ∃ g, f = g + 1 := ⟨f - 1, by omega⟩
    rw [renderV]
    exact parseV_true f rest
  | .jbool false, f, rest, hf, _ => by
    rw [sizeV] at hf
    obtain ⟨f, rfl⟩ : ∃ g, f = g + 1 := ⟨f - 1, by omega⟩
    rw [renderV]
    exact parseV_false f rest
  | .jnum n, f, rest, hf, hd => by
    rw [sizeV] at hf
    obtain ⟨f, rfl⟩ : ∃ g, f = g + 1 := ⟨f - 1, by omega⟩
    rw [renderV, renderInt]
    by_cases hn : n < 0
    · rw [if_pos hn]
      simp only [List.cons_append]
      rw [parseV_dash, parseNat_natDigits _ _ hd]
      simp only [Option.map_some']
      have : ((n.natAbs : Int)) = -n := by omega
      rw [this, neg_neg]
    · rw [if_neg hn]
      obtain ⟨c, t, hct⟩ := List.exists_cons_of_ne_nil (natDigits_ne_nil n.natAbs)
      have hc : c.isDigit = true :=
        natDigits_all_digits _ c (by rw [hct]; exact List.mem_cons_self _ _)
      rw [hct]
      simp only [List.cons_append]
      rw [parseV_digit f c _ hc, ← List.cons_append, ← hct, parseNat_natDigits _ _ hd]
      simp only [Option.map_some']
      have : ((n.natAbs : Int)) = n := by omega
      rw [this]
  | .jstr s, f, rest, hf, _ => by
    rw [sizeV] at hf
    obtain ⟨f, rfl⟩ : ∃ g, f = g + 1 := ⟨f - 1, by omega⟩
    rw [renderV]
    simp only [List.cons_append, List.append_assoc, List.singleton_append]
    rw [parseV_quote, parseStrBody_escape]
    rfl
  | .jarr a, f, rest, hf, _ => by
    rw [sizeV] at hf
    obtain ⟨f, rfl⟩ : ∃ g, f = g + 1 := ⟨f - 1, by omega⟩
    have ha : sizeA a ≤ f := by omega
    rw [renderV]
    simp only [List.cons_append, List.append_assoc, List.singleton_append, List.nil_append]
    rw [parseV_lbrack, parseA_renderA a f rest ha]
    rfl
  | .jobj o, f, rest, hf, _ => by
    rw [sizeV] at hf
    obtain ⟨f, rfl⟩ : ∃ g, f = g + 1 := ⟨f - 1, by omega⟩
    have ho : sizeO o ≤ f := by omega
    rw [renderV]
    simp only [List.cons_append, List.append_assoc, List.singleton_append, List.nil_append]
    rw [parseV_lbrace, parseO_renderO o f rest ho]
    rfl

theorem parseA_renderA : ∀ (a : JArr) (f : Nat) (rest : List Char),
    sizeA a ≤ f → parseA f (renderA a ++ ']' :: rest) = some (a, rest)
  | .anil, f, rest, _ => by
    rw [renderA]
    simp only [List.nil_append]
    exact parseA_rbrack f rest
  | .acons v r, f, rest, hf => by
    rw [sizeA] at hf
    obtain ⟨f, rfl⟩ : ∃ g, f = g + 1 := ⟨f - 1, by omega⟩
    have hv : sizeV v ≤ f := by omega
    have hr : sizeA r ≤ f := by omega
    rw [renderA]
    simp only [List.append_assoc]
    obtain ⟨c, t, hct, hc1, _, _⟩ := renderV_head v
    have hpv : parseV f (renderV v ++ (renderA1 r ++ ']' :: rest))
        = some (v, renderA1 r ++ ']' :: rest) :=
      parseV_renderV v f _ hv (delimOk_renderA1 r rest)
    have hpa : parseA1 f (renderA1 r ++ ']' :: rest) = some (r, rest) :=
      parseA1_renderA1 r f rest hr
    rw [hct] at hpv ⊢
    simp only [List.cons_append] at hpv ⊢
    exact parseA_step f c _ _ _ v r hc1 hpv hpa

theorem parseA1_renderA1 : ∀ (a : JArr) (f : Nat) (rest : List Char),
    sizeA a ≤ f → parseA1 f (renderA1 a ++ ']' :: rest) = some (a, rest)
  | .anil, f, rest, _ => by
    rw [renderA1]
    simp only [List.nil_append]
    exact parseA1_rbrack f rest
  | .acons v r, f, rest, hf => by
    rw [sizeA] at hf
    obtain ⟨f, rfl⟩ : ∃ g, f = g + 1 := ⟨f - 1, by omega⟩
    have hv : sizeV v ≤ f := by omega
    have hr : sizeA r ≤ f := by omega
    rw [renderA1]
    simp only [List.cons_append, List.append_assoc]
    exact parseA1_comma f _ _ _ v r
      (parseV_renderV v f _ hv (delimOk_renderA1 r rest))
      (parseA1_renderA1 r f rest hr)

theorem parseO_renderO : ∀ (o : JObj) (f : Nat) (rest : List Char),
    sizeO o ≤ f → parseO f (renderO o ++ '\x7d' :: rest) = some (o, rest)
  | .onil, f, rest, _ => by
    rw [renderO]
    simp only [List.nil_append]
    exact parseO_rbrace f rest
  | .ocons k v r, f, rest, hf => by
    rw [sizeO] at hf
    obtain ⟨f, rfl⟩ : ∃ g, f = g + 1 := ⟨f - 1, by omega⟩
    have hv : sizeV v ≤ f := by omega
    have hr : sizeO r ≤ f := by omega
    rw [renderO]
    simp only [List.cons_append, List.append_assoc]
    exact parseO_member f _ _ _ _ k.data v r
      (parseStrBody_escape k.data _)
      (parseV_renderV v f _ hv (delimOk_renderO1 r rest))
      (parseO1_renderO1 r f rest hr)

theorem parseO1_renderO1 : ∀ (o : JObj) (f : Nat) (rest : List Char),
    sizeO o ≤ f → parseO1 f (renderO1 o ++ '\x7d' :: rest) = some (o, rest)
  | .onil, f, rest, _ => by
    rw [renderO1]
    simp only [List.nil_append]
    exact parseO1_rbrace f rest
  | .ocons k v r, f, rest, hf => by
    rw [sizeO] at hf
    obtain ⟨f, rfl⟩ : ∃ g, f = g + 1 := ⟨f - 1, by omega⟩
    have hv : sizeV v ≤ f := by omega
    have hr : sizeO r ≤ f := by omega
    rw [renderO1]
    simp only [List.cons_append, List.append_assoc]
    exact parseO1_comma f _ _ _ _ k.data v r
      (parseStrBody_escape k.data _)
      (parseV_renderV v f _ hv (delimOk_renderO1 r rest))
      (parseO1_renderO1 r f rest hr)

end

mutual

theorem sizeV_le_lengthV : ∀ v : JVal, sizeV v ≤ (renderV v).length
  | .jnull => by rw [sizeV, renderV]; simp
  | .jbool true => by rw [sizeV, renderV]; simp
  | .jbool false => by rw [sizeV, renderV]; simp
  | .jnum n => by
    rw [sizeV, renderV, renderInt]
    have h1 : 0 < (natDigits n.natAbs).length :=
      List.length_pos.mpr (natDigits_ne_nil n.natAbs)
    by_cases hn : n < 0
    · rw [if_pos hn]
      simp only [List.length_cons]
      omega
    · rw [if_neg hn]
      omega
  | .jstr s => by rw [sizeV, renderV]; simp
  | .jarr a => by
    rw [sizeV, renderV]
    have h := sizeA_le_lengthA a
    simp only [List.length_cons, List.length_append, List.length_singleton]
    omega
  | .jobj o => by
    rw [sizeV, renderV]
    have h := sizeO_le_lengthO o
    simp only [List.length_cons, List.length_append, List.length_singleton]
    omega

theorem sizeA_le_lengthA : ∀ a : JArr, sizeA a ≤ (renderA a).length + 1
  | .anil => by rw [sizeA, renderA]; simp
  | .acons v r => by
    rw [sizeA, renderA]
    have h1 := sizeV_le_lengthV v
    have h2 := sizeA_le_lengthA1 r
    simp only [List.length_append]
    omega

theorem sizeA_le_lengthA1 : ∀ a : JArr, sizeA a ≤ (renderA1 a).length
  | .anil => by rw [sizeA, renderA1]; simp
  | .acons v r => by
    rw [sizeA, renderA1]
    have h1 := sizeV_le_lengthV v
    have h2 := sizeA_le_lengthA1 r
    simp only [List.length_cons, List.length_append]
    omega

theorem sizeO_le_lengthO : ∀ o : JObj, sizeO o ≤ (renderO o).length + 1
  | .onil => by rw [sizeO, renderO]; simp
  | .ocons k v r => by
    rw [sizeO, renderO]
    have h1 := sizeV_le_lengthV v
    have h2 := sizeO_le_lengthO1 r
    simp only [List.length_cons, List.length_append]
    omega

theorem sizeO_le_lengthO1 : ∀ o : JObj, sizeO o ≤ (renderO1 o).length
  | .onil => by rw [sizeO, renderO1]; simp
  | .ocons k v r => by
    rw [sizeO, renderO1]
    have h1 := sizeV_le_lengthV v
    have h2 := sizeO_le_lengthO1 r
    simp only [List.length_cons, List.length_append]
    omega

end

theorem deserialize_serialize (v : JVal) : deserialize (serialize v) = some v := by
  rw [serialize, deserialize]
  have hb : sizeV v ≤ (renderV v).length + 1 :=
    le_trans (sizeV_le_lengthV v) (by omega)
  have h := parseV_renderV v ((renderV v).length + 1) [] hb rfl
  rw [List.append_nil] at h
  show (match parseV ((renderV v).length + 1) (renderV v) with
    | some (w, []) => some w
    | _ => none) = some v
  rw [h]

theorem serialize_ne_empty (v : JVal) : serialize v ≠ "" := by
  obtain ⟨c, t, hct, _, _, _⟩ := renderV_head v
  intro h
  have hd := congrArg String.data h
  rw [serialize] at hd
  simp only at hd
  rw [hct] at hd
  exact List.noConfusion hd

theorem observeChange_some {V : Type} (d : Nat) (o : V) (ft : Nat) (vl : V) (t : Nat) (v : V) :
    observeChange d { output := o, pending := some (ft, vl) } t v
      = { output := if ft ≤ t then vl else o, pending := some (t + d, v) } := by
  rw [observeChange, fireIfDue]
  by_cases h : ft ≤ t
  · simp [h]
  · simp [h]

theorem runChanges_characterize {V : Type} (d : Nat) :
    ∀ (evs : List (Nat × V)) (o : V) (ft : Nat) (vl : V),
      runChanges d { output := o, pending := some (ft, vl) } evs
        = { output := commitFold d o ft vl evs, pending := some (lastSched d ft vl evs) } := by
  intro evs
  induction evs with
  | nil => intro o ft vl; rw [runChanges, commitFold, lastSched]
  | cons ev evs ih =>
    intro o ft vl
    obtain ⟨t, v⟩ := ev
    rw [runChanges, observeChange_some, commitFold, lastSched]
    exact ih _ _ _

theorem stable_bridge {V : Type} (d now : Nat) :
    ∀ (evs : List (Nat × V)) (tl : Nat) (vl : V) (o : V),
      (if (lastSched d (tl + d) vl evs).1 ≤ now then (lastSched d (tl + d) vl evs).2
        else commitFold d o (tl + d) vl evs)
        = (stableValues d now ((tl, vl) :: evs)).getLastD o := by
  intro evs
  induction evs with
  | nil =>
    intro tl vl o
    rw [lastSched, commitFold, stableValues, stableValues]
    by_cases h : tl + d ≤ now
    · simp [h]
    · simp [h]
  | cons ev evs ih =>
    intro tl vl o
    obtain ⟨t2, v2⟩ := ev
    rw [lastSched, commitFold]
    rw [show stableValues d now ((tl, vl) :: (t2, v2) :: evs)
        = (if tl + d ≤ t2 then [vl] else []) ++ stableValues d now ((t2, v2) :: evs) from rfl]
    by_cases h : tl + d ≤ t2
    · rw [if_pos h, if_pos h, ih t2 v2 vl, List.singleton_append, List.getLastD_cons]
    · rw [if_neg h, if_neg h, ih t2 v2 o, List.nil_append]

theorem getLastD_mem_self {α : Type} (l : List α) (a : α) : l.getLastD a ∈ a :: l := by
  induction l generalizing a with
  | nil => simp
  | cons b t ih =>
    rw [List.getLastD_cons]
    exact List.mem_cons_of_mem a (ih b)

theorem setValue_memory (env : SetEnv) (key : String) (cur : JVal) (logs : List LogEntry)
    (a : RtArg) : (setValue env key cur logs a).1.1 = resolveValue a cur := by
  by_cases hw : env.hasWindow <;> by_cases hf : env.writeFails <;>
    simp [setValue, trySetItem, hw, hf]

/-- Claim C1: for every change schedule fed to the Debounced Value Emitter
with fixed delay `d`, the output read at any instant equals the last input
value that remained unchanged for at least `d` (the initial observed value
until the first full window elapses), and the output is never an
intermediate value that was replaced before `d` elapsed: it is always the
initial value or a stable one. -/

theorem debounce_output_matches_spec {V : Type} (d t0 now : Nat) (v0 : V)
    (evs : List (Nat × V)) :
    outputAt d t0 v0 evs now = specDebounceOutput d now t0 v0 evs
    ∧ outputAt d t0 v0 evs now ∈ v0 :: stableValues d now ((t0, v0) :: evs) := by
  have hmain : outputAt d t0 v0 evs now = specDebounceOutput d now t0 v0 evs := by
    rw [outputAt, mountDebounce, runChanges_characterize, specDebounceOutput,
      ← stable_bridge d now evs t0 v0 v0, fireIfDue]
    simp only []
    by_cases h : (lastSched d (t0 + d) v0 evs).1 ≤ now
    · rw [if_pos h, if_pos h]
    · rw [if_neg h, if_neg h]
  refine ⟨hmain, ?_⟩
  rw [hmain, specDebounceOutput]
  exact getLastD_mem_self _ _

/-- Claim C7: with `delayMs = 0` an observed change still defers the output
update to an asynchronous timer tick: right after the observing step the
output is whatever flushing the previous timer gives (independent of the new
value), the new value sits in a freshly scheduled timer, and only that
timer's tick publishes it. -/

theorem zero_delay_still_deferred {V : Type} (s : DState V) (t : Nat) (v : V) :
    (observeChange 0 s t v).output = (fireIfDue s t).output
    ∧ (observeChange 0 s t v).pending = some (t, v)
    ∧ (fireIfDue (observeChange 0 s t v) t).output = v := by
  refine ⟨rfl, by simp [observeChange], ?_⟩
  simp [observeChange, fireIfDue]

/-- Claim C6: after teardown, neither a previously scheduled debounce timer
nor a previously subscribed storage listener mutates any state: the cleanup
cancels the outstanding timer (firing is a no-op afterwards) and removes the
listener (event delivery is a no-op afterwards). -/

theorem teardown_blocks_callbacks {V : Type} (s : DState V) (now : Nat)
    (myKey : String) (i : LSInstance) (e : StoreEvent) :
    fireIfDue (unmountDebounce s) now = unmountDebounce s
    ∧ deliverStorage myKey (teardownLS i) e = teardownLS i := by
  constructor
  · rw [unmountDebounce, fireIfDue]
  · rw [teardownLS, deliverStorage]
    simp

/-- Claim C8: the default codec (`JSON.stringify` / `JSON.parse`) round-trips
every JSON value: strings, (integer) numbers, booleans, null, arrays and
plain objects. -/

theorem json_codec_roundtrip (v : JVal) : deserialize (serialize v) = some v :=
  deserialize_serialize v

/-- Claim C2: `open(key, initial)` returns `initial` when no durable-storage
collaborator is available (whatever the store holds, nothing is read or
written and no log is produced) and when the store holds no entry for `key`;
when the store holds a valid serialized `v`, it returns `v` regardless of
`initial`. -/

theorem openLS_initialization (env : LSEnv) (key : String) (initial v : JVal) :
    (env.hasWindow = false → openLS env key initial = (initial, []))
    ∧ (env.store key = none → openLS env key initial = (initial, []))
    ∧ (env.hasWindow = true → env.store key = some (serialize v) →
        (openLS env key initial).1 = v) := by
  refine ⟨?_, ?_, ?_⟩
  · intro h
    rw [openLS, if_pos h]
  · intro h
    rw [openLS]
    by_cases hw : env.hasWindow = false
    · rw [if_pos hw]
    · rw [if_neg hw, h]
  · intro hw hst
    rw [openLS, hst]
    simp only [hw]
    rw [if_neg (by decide)]
    rw [if_neg (serialize_ne_empty v), deserialize_serialize]

/-- Concrete instance of `openLS_initialization`: no window, an absent
entry, and a stored serialized `3`. -/

theorem openLS_initialization_witness :
    openLS ⟨false, fun _ => some "1"⟩ "k" (JVal.jnum 0) = (JVal.jnum 0, [])
    ∧ openLS ⟨true, fun _ => none⟩ "k" (JVal.jnum 0) = (JVal.jnum 0, [])
    ∧ (openLS ⟨true, fun _ => some (serialize (JVal.jnum 3))⟩ "k" (JVal.jnum 0)).1
        = JVal.jnum 3 :=
  ⟨(openLS_initialization ⟨false, fun _ => some "1"⟩ "k" (JVal.jnum 0) (JVal.jnum 3)).1 rfl,
   (openLS_initialization ⟨true, fun _ => none⟩ "k" (JVal.jnum 0) (JVal.jnum 3)).2.1 rfl,
   (openLS_initialization ⟨true, fun _ => some (serialize (JVal.jnum 3))⟩ "k"
      (JVal.jnum 0) (JVal.jnum 3)).2.2 rfl rfl⟩

/-- Claim C3: when the durable store's write throws, `setValue` still leaves
the in-memory current value equal to the resolved new value, the store is
unchanged, and the failure is only logged; no error reaches the caller (the
`try`/`catch` makes `setValue` a total function into plain results). -/

theorem setValue_write_failure (env : SetEnv) (key : String) (cur : JVal)
    (logs : List LogEntry) (a : RtArg) (h : env.writeFails = true) :
    (setValue env key cur logs a).1.1 = resolveValue a cur
    ∧ (setValue env key cur logs a).2 = env.store := by
  by_cases hw : env.hasWindow <;> simp [setValue, trySetItem, h, hw]

/-- Concrete instance of `setValue_write_failure`: a throwing write with a
literal argument. -/

theorem setValue_write_failure_witness :
    (setValue ⟨true, true, fun _ => none⟩ "k" (JVal.jnum 0) [] (RtArg.literal (JVal.jnum 7))).1.1
      = resolveValue (RtArg.literal (JVal.jnum 7)) (JVal.jnum 0)
    ∧ (setValue ⟨true, true, fun _ => none⟩ "k" (JVal.jnum 0) []
        (RtArg.literal (JVal.jnum 7))).2 = (⟨true, true, fun _ => none⟩ : SetEnv).store :=
  setValue_write_failure ⟨true, true, fun _ => none⟩ "k" (JVal.jnum 0) []
    (RtArg.literal (JVal.jnum 7)) rfl

/-- Claim C4: a storage notification for the synchronizer's own key carrying
a valid serialized payload updates the current value to the deserialized
payload; a notification for a different key leaves value and logs
unchanged. -/

theorem storage_event_sync (myKey k : String) (cur : JVal) (logs : List LogEntry)
    (raw : String) (v : JVal) (nv : Option String)
    (hser : deserialize raw = some v) (hne : k ≠ myKey) :
    handleStorageChange myKey cur logs ⟨some myKey, some raw⟩ = (v, logs)
    ∧ handleStorageChange myKey cur logs ⟨some k, nv⟩ = (cur, logs) := by
  constructor
  · rw [handleStorageChange]
    simp only []
    rw [if_pos trivial, hser]
  · rw [handleStorageChange]
    cases nv with
    | none => rfl
    | some raw2 =>
      simp only []
      rw [if_neg hne]

/-- Concrete instance of `storage_event_sync`: an event for our key `"a"`
carrying serialized `5`, and an event for the foreign key `"b"`. -/

theorem storage_event_sync_witness :
    handleStorageChange "a" (JVal.jnum 0) [] ⟨some "a", some (serialize (JVal.jnum 5))⟩
      = (JVal.jnum 5, [])
    ∧ handleStorageChange "a" (JVal.jnum 0) [] ⟨some "b", some "1"⟩ = (JVal.jnum 0, []) :=
  storage_event_sync "a" "b" (JVal.jnum 0) [] (serialize (JVal.jnum 5)) (JVal.jnum 5)
    (some "1") (deserialize_serialize (JVal.jnum 5)) (by decide)

/-- Claim C5, as stated, is false on the code in two ways. With key
`"settings"` holding the corrupt entry `"notjson"`, `open` yields the
initial value and emits exactly one log entry, but that entry is the
`console.log` of the parse error, whose content derives from the raw string
and does not reference the key. And the empty string is a non-deserializable
stored entry (`JSON.parse("")` throws) for which the truthiness check skips
parsing entirely, so `open` emits no log at all. -/

theorem corrupt_entry_warning_counterexample :
    (openLS ⟨true, fun k => if k = "settings" then some "notjson" else none⟩
        "settings" (JVal.jnum 0)
      = (JVal.jnum 0, [LogEntry.parseError "notjson"])
    ∧ (LogEntry.parseError "notjson").mentions "settings" = false)
    ∧ (deserialize "" = none
    ∧ openLS ⟨true, fun _ => some ""⟩ "settings" (JVal.jnum 0)
        = (JVal.jnum 0, [])) := by
  refine ⟨⟨?_, ?_⟩, ?_, ?_⟩ <;> decide

/-- Claim C5, amended: for a stored entry that is a non-empty
non-deserializable string, `open(key, initial)` yields `initial` and emits
exactly one log entry — the `console.log` of the deserialization error,
derived from the corrupt raw string rather than referencing `key` — while
for the empty stored entry (also non-deserializable) the truthiness check
skips parsing and `open` yields `initial` with no log; in either case the
model's read path performs no write, so the corrupt entry is left
untouched. -/

theorem corrupt_entry_fallback (env : LSEnv) (key : String) (initial : JVal)
    (raw : String) (hw : env.hasWindow = true) (hst : env.store key = some raw)
    (hbad : deserialize raw = none) :
    (raw ≠ "" → openLS env key initial = (initial, [LogEntry.parseError raw]))
    ∧ (raw = "" → openLS env key initial = (initial, [])) := by
  constructor
  · intro hne
    rw [openLS, hst]
    simp only [hw]
    rw [if_neg (by decide), if_neg hne, hbad]
  · intro he
    subst he
    rw [openLS, hst]
    simp only [hw]
    rw [if_neg (by decide)]
    exact if_pos trivial

/-- Concrete instances of `corrupt_entry_fallback`: the non-empty corrupt
entry `"oops"` (one log entry) and the empty entry (no log entry). -/

theorem corrupt_entry_fallback_witness :
    openLS ⟨true, fun _ => some "oops"⟩ "k" (JVal.jnum 1)
      = (JVal.jnum 1, [LogEntry.parseError "oops"])
    ∧ openLS ⟨true, fun _ => some ""⟩ "k" (JVal.jnum 1) = (JVal.jnum 1, []) :=
  ⟨(corrupt_entry_fallback ⟨true, fun _ => some "oops"⟩ "k" (JVal.jnum 1) "oops"
      rfl rfl (by decide)).1 (by decide),
   (corrupt_entry_fallback ⟨true, fun _ => some ""⟩ "k" (JVal.jnum 1) ""
      rfl rfl (by decide)).2 rfl⟩

/-- Claim C9: every `setValue` call that reaches the store writes under the
synchronizer's key exactly the serialization of the value simultaneously
adopted in memory. -/

theorem setValue_write_invariant (env : SetEnv) (key : String) (cur : JVal)
    (logs : List LogEntry) (a : RtArg) (hw : env.hasWindow = true)
    (hf : env.writeFails = false) :
    (setValue env key cur logs a).2 key
      = some (serialize ((setValue env key cur logs a).1.1))
    ∧ (setValue env key cur logs a).1.1 = resolveValue a cur := by
  simp [setValue, trySetItem, hw, hf]

/-- Concrete instance of `setValue_write_invariant`: a successful write of a
literal `5`. -/

theorem setValue_write_invariant_witness :
    (setValue ⟨true, false, fun _ => none⟩ "k" (JVal.jnum 0) []
        (RtArg.literal (JVal.jnum 5))).2 "k"
      = some (serialize ((setValue ⟨true, false, fun _ => none⟩ "k" (JVal.jnum 0) []
          (RtArg.literal (JVal.jnum 5))).1.1))
    ∧ (setValue ⟨true, false, fun _ => none⟩ "k" (JVal.jnum 0) []
        (RtArg.literal (JVal.jnum 5))).1.1
      = resolveValue (RtArg.literal (JVal.jnum 5)) (JVal.jnum 0) :=
  setValue_write_invariant ⟨true, false, fun _ => none⟩ "k" (JVal.jnum 0) []
    (RtArg.literal (JVal.jnum 5)) rfl rfl

/-- Claim C10: a function-valued argument to `setValue` is always routed
through the `value instanceof Function` branch: it is some updater `g`,
`g` is invoked on the current value, and the result of `g` — never the
function itself — becomes the stored value. -/

theorem setValue_updater_dispatch (env : SetEnv) (key : String) (cur : JVal)
    (logs : List LogEntry) (a : RtArg) (h : a.isFunction = true) :
    ∃ g : JVal → JVal, a = RtArg.updater g
      ∧ (setValue env key cur logs a).1.1 = g cur := by
  cases a with
  | updater f => exact ⟨f, rfl, setValue_memory env key cur logs (RtArg.updater f)⟩
  | literal v => simp [RtArg.isFunction] at h

/-- Concrete instance of `setValue_updater_dispatch`: an updater argument. -/

theorem setValue_updater_dispatch_witness :
    ∃ g : JVal → JVal, RtArg.updater (fun _ => JVal.jnum 9) = RtArg.updater g
      ∧ (setValue ⟨true, false, fun _ => none⟩ "k" (JVal.jnum 0) []
          (RtArg.updater (fun _ => JVal.jnum 9))).1.1 = g (JVal.jnum 0) :=
  setValue_updater_dispatch ⟨true, false, fun _ => none⟩ "k" (JVal.jnum 0) []
    (RtArg.updater (fun _ => JVal.jnum 9)) rfl
